import Mathlib

/-!
Verification of the record-hygiene pipeline of SalesOpsMultiAgent.py.

The Python source is shallowly embedded: records are ordered association
lists from field names to scalar values, numeric values are exact rationals
(the floating-point arithmetic of the source is modelled by exact rational
arithmetic), fallible operations return Except String, and the two
wall-clock reads (staleness and past-due checks) take the current day as an
explicit parameter. String primitives of Python that the source relies on
(truthiness, str(), str.title(), re.match with the two fixed patterns,
float() parsing, datetime.strptime with the fixed YYYY-MM-DD format, and
the fuzz.ratio similarity backed by the Levenshtein ratio) are reimplemented
on lists of characters so that every definition is executable.
-/

/-! ## Scalar values and records

A Record models a Python dict with string keys: an ordered association
list. Numbers (int and float alike) are modelled as exact rationals. -/
inductive Value where
  | str (s : String)
  | num (q : Rat)
  | bool (b : Bool)
  | null
deriving DecidableEq

/-- Python truthiness of a scalar: empty string, zero, False and None are
falsy, everything else truthy. -/
def pyTruthy : Value → Bool
  | .str s => !(s = "")
  | .num q => !(q = 0)
  | .bool b => b
  | .null => false

/-- Python str() of a scalar. Integral rationals render like Python ints;
the claims only ever exercise str on strings and integral numbers. -/
def pyStr : Value → String
  | .str s => s
  | .num q => if q.den = 1 then toString q.num else toString q
  | .bool b => if b then "True" else "False"
  | .null => "None"

/-- A record: an ordered mapping from field name to scalar value. -/
abbrev Record := List (String × Value)

/-- Lookup of a field, like dict.get: the first binding of the key. -/
def getVal : Record → String → Option Value
  | [], _ => none
  | (k', v) :: rest, k => if k' = k then some v else getVal rest k

/-- Update of a field in place, like dict assignment: the first binding of
the key is replaced where it stands; a missing key is appended at the end
(Python dicts preserve insertion order). -/
def setVal : Record → String → Value → Record
  | [], k, v => [(k, v)]
  | (k', v') :: rest, k, v => if k' = k then (k, v) :: rest else (k', v') :: setVal rest k v

/-! ## Python string primitives -/
/-- ASCII whitespace, the characters the \s class of the re module and
float() stripping recognise (the model is restricted to ASCII text). -/
def isPyWs (c : Char) : Bool :=
  c == ' ' || c == '\t' || c == '\n' || c == '\r' || c == '\x0b' || c == '\x0c'

/-- Core of str.title: the first cased character of every run of letters is
uppercased, the following ones lowercased; uncased characters pass through
and end the current run. The flag records whether the previous character
was a letter. -/
def pyTitleAux : Bool → List Char → List Char
  | _, [] => []
  | prevAlpha, c :: cs =>
    if c.isAlpha then
      (if prevAlpha then c.toLower else c.toUpper) :: pyTitleAux true cs
    else
      c :: pyTitleAux false cs

/-- Python str.title (on ASCII letters). -/
def pyTitle (s : String) : String := ⟨pyTitleAux false s.data⟩

/-- Python re.sub of the class of non-digits by the empty string: keep only
the ASCII decimal digits. -/
def stripNonDigits (s : String) : String := ⟨s.data.filter Char.isDigit⟩

/-- Matcher for the email pattern of the source, a non-anchored re.match:
some prefix of the string decomposes as one or more characters that are
neither the at sign nor whitespace, an at sign, one or more such characters,
a dot, and one more such character. -/
def emailClass (c : Char) : Bool := !(c == '@') && !(isPyWs c)

def emailMatchL (l : List Char) : Bool :=
  (List.range l.length).any fun a =>
    (l.getD a ' ' == '@') && decide (0 < a) && (l.take a).all emailClass &&
      ((List.range l.length).any fun d =>
        decide (a + 1 < d) && (l.getD d ' ' == '.') &&
          ((l.drop (a + 1)).take (d - (a + 1))).all emailClass &&
          decide (d + 1 < l.length) && emailClass (l.getD (d + 1) ' '))

def emailMatch (s : String) : Bool := emailMatchL s.data

/-- Matcher for the phone pattern of the source: an optional leading plus
sign then 7 to 15 ASCII digits, anchored at both ends; the dollar anchor
also matches just before one final newline. -/
def phoneCore (l : List Char) : Bool :=
  let t := match l with
    | '+' :: r => r
    | r => r
  decide (7 ≤ t.length) && decide (t.length ≤ 15) && t.all Char.isDigit

def phoneMatch (s : String) : Bool :=
  phoneCore s.data ||
    (match s.data.getLast? with
      | some '\n' => phoneCore s.data.dropLast
      | _ => false)

/-! ## Python float() parsing

A parsed float is a number, a NaN or a signed infinity; only the sign test
against zero is ever applied to it. Underscore digit separators are not
modelled. -/
inductive PyFloat where
  | num (q : Rat)
  | nan
  | inf (neg : Bool)
deriving DecidableEq

/-- Whether a parsed float compares strictly below zero (NaN does not). -/
def pyFloatNeg : PyFloat → Bool
  | .num q => decide (q < 0)
  | .nan => false
  | .inf neg => neg

def digitsToNat (l : List Char) : Nat := l.foldl (fun a c => a * 10 + (c.toNat - 48)) 0

/-- Decimal part of float() parsing, after sign handling: digits, an
optional dot with digits, an optional exponent; at least one mantissa
digit must be present and nothing may remain. -/
def parseDecimal (neg : Bool) (l : List Char) : Option PyFloat :=
  let d1 := l.takeWhile Char.isDigit
  let r1 := l.drop d1.length
  let (d2, r2) := match r1 with
    | '.' :: t => (t.takeWhile Char.isDigit, t.drop (t.takeWhile Char.isDigit).length)
    | _ => ([], r1)
  if d1.isEmpty && d2.isEmpty then none
  else
    let mant : Rat := (digitsToNat (d1 ++ d2) : Rat) / ((10 : Rat) ^ d2.length)
    let signed : Rat := if neg then -mant else mant
    match r2 with
    | [] => some (.num signed)
    | e :: t =>
      if e == 'e' || e == 'E' then
        let (eneg, t2) := match t with
          | '+' :: t' => (false, t')
          | '-' :: t' => (true, t')
          | t' => (false, t')
        if t2.isEmpty || !(t2.all Char.isDigit) then none
        else
          let ex := digitsToNat t2
          some (.num (if eneg then signed / ((10 : Rat) ^ ex) else signed * ((10 : Rat) ^ ex)))
      else none

/-- Python float() on a string: strip whitespace, take an optional sign,
accept inf, infinity and nan case-insensitively, else parse a decimal
literal. none models a raised ValueError. -/
def pyParseFloat (s : String) : Option PyFloat :=
  let l := (s.data.dropWhile isPyWs).reverse.dropWhile isPyWs |>.reverse
  match l with
  | [] => none
  | _ =>
    let (neg, rest) := match l with
      | '+' :: t => (false, t)
      | '-' :: t => (true, t)
      | t => (false, t)
    let low := rest.map Char.toLower
    if low = "inf".data || low = "infinity".data then some (.inf neg)
    else if low = "nan".data then some .nan
    else parseDecimal neg rest

/-- Python float() applied to a scalar value: numbers pass through, booleans
become 0 or 1, None raises (drops to none), strings are parsed. -/
def pyFloatOfValue : Value → Option PyFloat
  | .num q => some (.num q)
  | .bool b => some (.num (if b then 1 else 0))
  | .null => none
  | .str s => pyParseFloat s

/-! ## datetime.strptime with format YYYY-MM-DD, and date ordinals -/
def isLeapYear (y : Nat) : Bool := y % 4 == 0 && (!(y % 100 == 0) || y % 400 == 0)

def daysInMonth (y m : Nat) : Nat :=
  if m = 2 then (if isLeapYear y then 29 else 28)
  else if m = 4 || m = 6 || m = 9 || m = 11 then 30
  else 31

/-- Days in the months strictly before month m of year y. -/
def daysBeforeMonth (y m : Nat) : Nat :=
  (List.range (m - 1)).foldl (fun a mm => a + daysInMonth y (mm + 1)) 0

/-- Proleptic Gregorian ordinal of a calendar date, as datetime.toordinal:
day 1 is January 1 of year 1. -/
def toOrdinal (y m d : Nat) : Int :=
  ((365 * (y - 1) + (y - 1) / 4 + (y - 1) / 400 - (y - 1) / 100
    + daysBeforeMonth y m + d : Nat) : Int)

/-- Split a character list at every dash, like str.split on a dash. -/
def splitDash : List Char → List (List Char)
  | [] => [[]]
  | c :: t =>
    match splitDash t with
    | [] => [[c]]
    | h :: r => if c = '-' then [] :: h :: r else (c :: h) :: r

/-- datetime.strptime(s, the fixed YYYY-MM-DD format), returning the
ordinal of the parsed date: exactly four year digits, one or two month and
day digits, in-range month and calendar-valid day, nothing left over; none
models a raised ValueError. -/
def parseDate (s : String) : Option Int :=
  match splitDash s.data with
  | [yl, ml, dl] =>
    if (yl.length == 4 && yl.all Char.isDigit &&
        decide (1 ≤ ml.length) && decide (ml.length ≤ 2) && ml.all Char.isDigit &&
        decide (1 ≤ dl.length) && decide (dl.length ≤ 2) && dl.all Char.isDigit) then
      let y := digitsToNat yl
      let m := digitsToNat ml
      let d := digitsToNat dl
      if (decide (1 ≤ y) && decide (1 ≤ m) && decide (m ≤ 12) &&
          decide (1 ≤ d) && decide (d ≤ daysInMonth y m)) then
        some (toOrdinal y m d)
      else none
    else none
  | _ => none

/-! ## fuzz.ratio

The similarity of fuzzywuzzy backed by the Levenshtein ratio: 100 for equal
strings, 0 when exactly one is empty, else the rounding (half to even, as
Python round) of 200 times the length of a longest common subsequence over
the sum of the lengths. -/
def lcs : List Char → List Char → Nat
  | [], _ => 0
  | _ :: _, [] => 0
  | a :: as, b :: bs =>
    if a = b then lcs as bs + 1
    else max (lcs (a :: as) bs) (lcs as (b :: bs))

/-- Rounding half to even of the fraction a / b on naturals, b positive. -/
def roundHalfEven (a b : Nat) : Nat :=
  let q := a / b
  let r := a % b
  if 2 * r < b then q
  else if b < 2 * r then q + 1
  else if q % 2 == 0 then q else q + 1

/-- fuzz.ratio of fuzzywuzzy on two strings (the check for equal arguments
and for an empty argument are the decorators of the library; the rest is
the Levenshtein ratio scaled to 0..100). -/
def fuzzRatio (s t : String) : Nat :=
  if s = t then 100
  else if s.length = 0 || t.length = 0 then 0
  else roundHalfEven (200 * lcs s.data t.data) (s.length + t.length)

namespace SalesOps

/-! ## MissingFieldsAgent -/
/-- MissingFieldsAgent.check: the required fields whose value is absent or
falsy. -/
def check (record : Record) (required_fields : List String) : List String :=
  required_fields.filter fun f =>
    match getVal record f with
    | some v => !(pyTruthy v)
    | none => true

/-! ## ValidationAgent -/
/-- ValidationAgent.validate: email shape, phone shape, then amount sign,
each checked only when the field is present; a float() failure on the
amount is caught and reported as Invalid amount. -/
def validate (record : Record) : List String :=
  (match getVal record "email" with
    | some v => if emailMatch (pyStr v) then [] else ["Invalid email"]
    | none => []) ++
  (match getVal record "phone" with
    | some v => if phoneMatch (pyStr v) then [] else ["Invalid phone number"]
    | none => []) ++
  (match getVal record "amount" with
    | some v =>
      match pyFloatOfValue v with
      | some f => if pyFloatNeg f then ["Negative amount"] else []
      | none => ["Invalid amount"]
    | none => [])

/-! ## DeduplicationAgent -/
/-- Stringified key field of a record, str(record.get(key_field, '')). -/
def keyStr (r : Record) (key_field : String) : String :=
  match getVal r key_field with
  | some v => pyStr v
  | none => ""

/-- One iteration of the nested loops of find_duplicates: state is the
pair (duplicates, seen). -/
def fdStep (score : Nat → Nat → Nat) (st : List (Nat × Nat) × List (Nat × Nat))
    (i j : Nat) : List (Nat × Nat) × List (Nat × Nat) :=
  if i ≠ j ∧ (j, i) ∉ st.2 then
    (if 90 < score i j then (st.1 ++ [(i, j)], st.2 ++ [(i, j)]) else st)
  else st

/-- The similarity fuzz.ratio(str(records(i).get(key_field, empty)),
str(records(j).get(key_field, empty))) computed inside the loops. -/
def fdScore (records : List Record) (key_field : String) (i j : Nat) : Nat :=
  fuzzRatio (keyStr (records.getD i []) key_field) (keyStr (records.getD j []) key_field)

/-- DeduplicationAgent.find_duplicates: the quadratic scan of the source,
with the seen set preventing a mirrored report of a pair. -/
def find_duplicates (records : List Record) (key_field : String) : List (Nat × Nat) :=
  ((List.range records.length).foldl
    (fun st i => (List.range records.length).foldl
      (fun st' j => fdStep (fdScore records key_field) st' i j) st)
    ([], [])).1

/-! ## StalenessAgent -/
/-- StalenessAgent.detect_stale: stale when the parsed last_activity date is
more than the threshold of days before now; a missing or non-string value,
or a string strptime rejects, is stale. nowOrd is the ordinal of the
current date (the time of day cannot change a day difference against a
midnight timestamp). -/
def detect_stale (nowOrd : Int) (record : Record) (days_threshold : Int) : Bool :=
  match getVal record "last_activity" with
  | some (.str s) =>
    match parseDate s with
    | some d => decide (nowOrd - d > days_threshold)
    | none => true
  | _ => true

/-! ## NormalizationAgent -/
/-- One conditional field rewrite of normalize: when the field is present
and truthy, its value goes through f (which may raise, as calling .title()
on a non-string does). -/
def normStep (key : String) (f : Value → Except String Value) (r : Record) :
    Except String Record :=
  match getVal r key with
  | some v =>
    if pyTruthy v then
      match f v with
      | .ok v' => .ok (setVal r key v')
      | .error e => .error e
    else .ok r
  | none => .ok r

/-- The .title() call of normalize: only a string has this method. -/
def titleF : Value → Except String Value
  | .str s => .ok (.str (pyTitle s))
  | _ => .error "AttributeError: title"

/-- The phone rewrite of normalize, re.sub of non-digits on str(value):
never raises. -/
def phoneF : Value → Except String Value
  | v => .ok (.str (stripNonDigits (pyStr v)))

/-- NormalizationAgent.normalize: title-case first and last name, keep only
digits of the phone, each only when present and truthy; the record is
copied, never mutated (the embedding is pure, so the copy is implicit). -/
def normalize (record : Record) : Except String Record :=
  match normStep "first_name" titleF record with
  | .error e => .error e
  | .ok r1 =>
    match normStep "last_name" titleF r1 with
    | .error e => .error e
    | .ok r2 => normStep "phone" phoneF r2

/-! ## EnrichmentAgent -/
/-- EnrichmentAgent.enrich: fields of the enrichment source fill only the
slots that are absent or falsy in the record. -/
def enrich (record : Record) (enrichment_data : List (String × Value)) : Record :=
  enrichment_data.foldl
    (fun acc kv =>
      if pyTruthy ((getVal acc kv.1).getD .null) then acc else setVal acc kv.1 kv.2)
    record

/-! ## InsightsAgent

generate_insights builds a pandas DataFrame from the batch. A column
exists when some record of the batch carries the key; a cell of a record
lacking the key is NaN (not a string, null for isnull). Accessing a
missing column raises a KeyError, modelled as Except.error; the date
lambdas apply strptime without a try and so raise a ValueError on a
string that does not parse. The dict literal of the source evaluates its
entries in order, so the first failing entry determines the error. -/
inductive Metric where
  | leadsMissingEmail
  | oppsWithoutCloseDate
  | duplicateRecords
  | oppsWithoutOwner
  | dealsWithoutStage
  | staleOpportunities
  | untouchedLeads
  | missingIndustrySize
  | invalidEmailOrPhone
  | contactsWithoutAccounts
  | pastDueCloseDates
  | normalizationFixes
deriving DecidableEq

/-- The fixed order of the metric names in the source dictionaries. -/
def metricList : List Metric :=
  [.leadsMissingEmail, .oppsWithoutCloseDate, .duplicateRecords, .oppsWithoutOwner,
   .dealsWithoutStage, .staleOpportunities, .untouchedLeads, .missingIndustrySize,
   .invalidEmailOrPhone, .contactsWithoutAccounts, .pastDueCloseDates, .normalizationFixes]

/-- Whether the DataFrame of the batch has the column: some record carries
the key. -/
def hasCol (records : List Record) (f : String) : Bool :=
  records.any fun r => (getVal r f).isSome

/-- pandas isnull of one cell: true for a missing key (NaN) and for None. -/
def cellNull (c : Option Value) : Bool :=
  match c with
  | none => true
  | some .null => true
  | some _ => false

/-- df(col).isnull().sum(): how many records have a null cell. -/
def nullCount (records : List Record) (f : String) : Nat :=
  (records.filter fun r => cellNull (getVal r f)).length

/-- The staleness lambda of generate_insights on one cell: a string is
parsed with strptime and compared (raising on a parse failure, there is no
try here); anything else, including the NaN of a missing key, counts as
stale. -/
def staleFlag (nowOrd : Int) (t : Int) (c : Option Value) : Except String Bool :=
  match c with
  | some (.str s) =>
    match parseDate s with
    | some d => .ok (decide (nowOrd - d > t))
    | none => .error "ValueError: time data does not match format"
  | _ => .ok true

/-- Sum of the staleness lambda over the last_activity column. -/
def staleCount (nowOrd : Int) (t : Int) : List Record → Except String Nat
  | [] => .ok 0
  | r :: rest =>
    match staleFlag nowOrd t (getVal r "last_activity") with
    | .error e => .error e
    | .ok b =>
      match staleCount nowOrd t rest with
      | .error e => .error e
      | .ok k => .ok ((if b then 1 else 0) + k)

/-- The past-due lambda on one close_date cell: a string is parsed (raising
on failure) and compared against now as a full timestamp, so a close date
equal to the current date is past due exactly when the time of day is
past midnight (nowPastMidnight); a non-string counts as not past due. -/
def pastDueFlag (nowOrd : Int) (nowPastMidnight : Bool) (c : Option Value) :
    Except String Bool :=
  match c with
  | some (.str s) =>
    match parseDate s with
    | some d => .ok (decide (d < nowOrd) || (decide (d = nowOrd) && nowPastMidnight))
    | none => .error "ValueError: time data does not match format"
  | _ => .ok false

/-- Sum of the past-due lambda over the close_date column. -/
def pastDueCount (nowOrd : Int) (nowPastMidnight : Bool) : List Record → Except String Nat
  | [] => .ok 0
  | r :: rest =>
    match pastDueFlag nowOrd nowPastMidnight (getVal r "close_date") with
    | .error e => .error e
    | .ok b =>
      match pastDueCount nowOrd nowPastMidnight rest with
      | .error e => .error e
      | .ok k => .ok ((if b then 1 else 0) + k)

/-- Row access x.get(f, empty) of the invalid email or phone lambda: the
default applies only when the whole column is missing; a present column
with a missing cell yields NaN, whose str() is nan. -/
def rowStr (records : List Record) (r : Record) (f : String) : String :=
  if hasCol records f then
    match getVal r f with
    | some v => pyStr v
    | none => "nan"
  else ""

/-- Count of records failing the email shape or the phone shape. -/
def invalidCount (records : List Record) : Nat :=
  (records.filter fun r =>
    !(emailMatch (rowStr records r "email")) || !(phoneMatch (rowStr records r "phone"))).length

/-- Count of records where industry or company_size is null. -/
def eitherNullCount (records : List Record) : Nat :=
  (records.filter fun r =>
    cellNull (getVal r "industry") || cellNull (getVal r "company_size")).length

/-- df(normalized).sum() over the boolean normalized column the pipeline
writes: the count of records carrying a true flag (a NaN cell is skipped
by the sum). -/
def trueCount (records : List Record) (f : String) : Nat :=
  (records.filter fun r => getVal r f == some (.bool true)).length

/-- InsightsAgent.generate_insights: the twelve metric counts, in the order
of the dict literal of the source; entries that access a column without a
presence guard (email, close_date, last_activity twice, close_date again)
raise a KeyError when the column is absent, and the two date lambdas raise
a ValueError on an unparsable date string. -/
def generate_insights (nowOrd : Int) (nowPastMidnight : Bool) (records : List Record)
    (duplicates : List (Nat × Nat)) : Except String (Metric → Nat) :=
  match (if hasCol records "email" then .ok (nullCount records "email")
         else .error "KeyError: email" : Except String Nat) with
  | .error e => .error e
  | .ok missingEmail =>
  match (if hasCol records "close_date" then .ok (nullCount records "close_date")
         else .error "KeyError: close_date" : Except String Nat) with
  | .error e => .error e
  | .ok missingClose =>
  let dupCount := duplicates.length
  let noOwner := if hasCol records "owner" then nullCount records "owner" else 0
  let noStage := if hasCol records "stage" then nullCount records "stage" else 0
  match (if hasCol records "last_activity" then staleCount nowOrd 30 records
         else .error "KeyError: last_activity" : Except String Nat) with
  | .error e => .error e
  | .ok stale =>
  match (if hasCol records "last_activity" then staleCount nowOrd 14 records
         else .error "KeyError: last_activity" : Except String Nat) with
  | .error e => .error e
  | .ok untouched =>
  let missingInd := if hasCol records "industry" && hasCol records "company_size"
    then eitherNullCount records else 0
  let invalidEP := invalidCount records
  let noAccount := if hasCol records "account_id" then nullCount records "account_id" else 0
  match (if hasCol records "close_date" then pastDueCount nowOrd nowPastMidnight records
         else .error "KeyError: close_date" : Except String Nat) with
  | .error e => .error e
  | .ok pastDue =>
  let normFixes := if hasCol records "normalized" then trueCount records "normalized" else 0
  .ok fun m =>
    match m with
    | .leadsMissingEmail => missingEmail
    | .oppsWithoutCloseDate => missingClose
    | .duplicateRecords => dupCount
    | .oppsWithoutOwner => noOwner
    | .dealsWithoutStage => noStage
    | .staleOpportunities => stale
    | .untouchedLeads => untouched
    | .missingIndustrySize => missingInd
    | .invalidEmailOrPhone => invalidEP
    | .contactsWithoutAccounts => noAccount
    | .pastDueCloseDates => pastDue
    | .normalizationFixes => normFixes

/-- The weight table of calculate_health_score (exact rationals for the
float literals of the source). -/
def weights : Metric → Rat
  | .leadsMissingEmail => 0.08
  | .oppsWithoutCloseDate => 0.12
  | .duplicateRecords => 0.15
  | .oppsWithoutOwner => 0.25
  | .dealsWithoutStage => 0.08
  | .staleOpportunities => 0.04
  | .untouchedLeads => 0.04
  | .missingIndustrySize => 0.02
  | .invalidEmailOrPhone => 0.06
  | .contactsWithoutAccounts => 0.06
  | .pastDueCloseDates => 0.08
  | .normalizationFixes => 0.01

/-- Python int() on a rational: truncation toward zero. -/
def pyInt (q : Rat) : Int := if q < 0 then -(Int.floor (-q)) else Int.floor q

/-- The weighted, per-metric-capped penalty of calculate_health_score: each
positive count contributes its weight times the count capped at 5. -/
def penalty (insights : Metric → Nat) : Rat :=
  (metricList.map fun k =>
    if 0 < insights k then (min (insights k) 5 : Nat) * weights k else 0).sum

/-- The piecewise nonlinear remap of the penalty into the final score. -/
def remap (p : Rat) : Int :=
  if p = 0 then 100
  else if p ≤ 0.5 then 95 + pyInt ((0.5 - p) * 10)
  else if p ≤ 2 then 85 + pyInt ((2 - p) * 6.67)
  else if p ≤ 5 then 50 + pyInt ((5 - p) * 8.33)
  else max 10 (50 - pyInt ((p - 5) * 4))

/-- InsightsAgent.calculate_health_score: weighted capped penalty, then the
piecewise remap. -/
def calculate_health_score (insights : Metric → Nat) : Int :=
  remap (penalty insights)

/-! ## OrchestratorAgent -/
/-- The per-record mutation step of run_pipeline: normalize (which may
raise), set the normalized flag, enrich. The alert calls of the loop
(check, validate, detect_stale) only print; they cannot raise and do not
change the records, so the model elides them. -/
def processRecord (enrichment_source : List (String × Value)) (r : Record) :
    Except String Record :=
  match normalize r with
  | .error e => .error e
  | .ok r1 => .ok (enrich (setVal r1 "normalized" (.bool true)) enrichment_source)

def processRecords (enrichment_source : List (String × Value)) :
    List Record → Except String (List Record)
  | [] => .ok []
  | r :: rest =>
    match processRecord enrichment_source r with
    | .error e => .error e
    | .ok r' =>
      match processRecords enrichment_source rest with
      | .error e => .error e
      | .ok rest' => .ok (r' :: rest')

/-- OrchestratorAgent.run_pipeline: per-record normalize+flag+enrich, then
deduplication keyed on email, then insights and score (the values handed
to the presentation boundary). -/
def run_pipeline (nowOrd : Int) (nowPastMidnight : Bool) (records : List Record)
    (enrichment_source : List (String × Value)) :
    Except String ((Metric → Nat) × Int) :=
  match processRecords enrichment_source records with
  | .error e => .error e
  | .ok processed =>
    let duplicates := find_duplicates processed "email"
    match generate_insights nowOrd nowPastMidnight processed duplicates with
    | .error e => .error e
    | .ok insights => .ok (insights, calculate_health_score insights)

/-! ## The three segments of the validator output -/
/-- The email segment of the validator output. -/
def emailErrs (r : Record) : List String :=
  match getVal r "email" with
  | some v => if emailMatch (pyStr v) then [] else ["Invalid email"]
  | none => []

/-- The phone segment of the validator output. -/
def phoneErrs (r : Record) : List String :=
  match getVal r "phone" with
  | some v => if phoneMatch (pyStr v) then [] else ["Invalid phone number"]
  | none => []

/-- The amount segment of the validator output. -/
def amountErrs (r : Record) : List String :=
  match getVal r "amount" with
  | some v =>
    match pyFloatOfValue v with
    | some f => if pyFloatNeg f then ["Negative amount"] else []
    | none => ["Invalid amount"]
  | none => []

/-- The pairs the source reports for row i among the inner indices js. -/
def rowSpec (score : Nat → Nat → Nat) (i : Nat) (js : List Nat) : List (Nat × Nat) :=
  (js.filter fun j => decide (i < j) && decide (90 < score i j)).map fun j => (i, j)

/-- The pairs reported for the rows below m, each against the full range. -/
def dupSpecUpTo (score : Nat → Nat → Nat) (n m : Nat) : List (Nat × Nat) :=
  (List.range m).flatMap fun a => rowSpec score a (List.range n)

/-- The clean characterisation of the output of find_duplicates: for every
row in order, the strictly larger columns in order whose score beats 90. -/
def dupSpec (score : Nat → Nat → Nat) (n : Nat) : List (Nat × Nat) :=
  dupSpecUpTo score n n

/-! ## Cell classification used by the date lambdas -/
/-- Whether a cell is not a string (the isinstance guard of the date
lambdas): true for a missing key, None, a number or a boolean. -/
def notStrCell : Option Value → Bool
  | some (.str _) => false
  | _ => true

end SalesOps

/-! ## Facts about character case mapping, used for str.title semantics -/
theorem toNat_ofNatAux (n : Nat) (h : n.isValidChar) : (Char.ofNatAux n h).toNat = n := by
  simp [Char.ofNatAux, Char.toNat, UInt32.toNat]

theorem char_eq_of_toNat {a b : Char} (h : a.toNat = b.toNat) : a = b :=
  Char.ext (UInt32.ext h)

theorem toNat_toUpper (c : Char) :
    (c.toUpper).toNat = if 97 ≤ c.toNat ∧ c.toNat ≤ 122 then c.toNat - 32 else c.toNat := by
  unfold Char.toUpper
  split
  · next h =>
    rw [if_pos (by omega)]
    have hv : (c.toNat - 32).isValidChar := Or.inl (by omega)
    simp [Char.ofNat, hv, toNat_ofNatAux]
  · next h => rw [if_neg (by omega)]

theorem toNat_toLower (c : Char) :
    (c.toLower).toNat = if 65 ≤ c.toNat ∧ c.toNat ≤ 90 then c.toNat + 32 else c.toNat := by
  unfold Char.toLower
  split
  · next h =>
    rw [if_pos (by omega)]
    have hv : (c.toNat + 32).isValidChar := Or.inl (by omega)
    simp [Char.ofNat, hv, toNat_ofNatAux]
  · next h => rw [if_neg (by omega)]

theorem isUpper_eq (c : Char) : c.isUpper = decide (65 ≤ c.toNat ∧ c.toNat ≤ 90) := by
  rw [Char.isUpper, Bool.decide_and]
  congr 1

theorem isLower_eq (c : Char) : c.isLower = decide (97 ≤ c.toNat ∧ c.toNat ≤ 122) := by
  rw [Char.isLower, Bool.decide_and]
  congr 1

theorem isAlpha_eq (c : Char) :
    c.isAlpha = (decide (65 ≤ c.toNat ∧ c.toNat ≤ 90) || decide (97 ≤ c.toNat ∧ c.toNat ≤ 122)) := by
  rw [Char.isAlpha, isUpper_eq, isLower_eq]

theorem isAlpha_toUpper (c : Char) : (c.toUpper).isAlpha = c.isAlpha := by
  rw [isAlpha_eq, isAlpha_eq]
  rw [Bool.eq_iff_iff]
  simp only [Bool.or_eq_true, decide_eq_true_eq, toNat_toUpper]
  split <;> omega

theorem isAlpha_toLower (c : Char) : (c.toLower).isAlpha = c.isAlpha := by
  rw [isAlpha_eq, isAlpha_eq]
  rw [Bool.eq_iff_iff]
  simp only [Bool.or_eq_true, decide_eq_true_eq, toNat_toLower]
  split <;> omega

theorem toUpper_toUpper (c : Char) : c.toUpper.toUpper = c.toUpper := by
  apply char_eq_of_toNat
  simp only [toNat_toUpper]
  split_ifs <;> omega

theorem toLower_toLower (c : Char) : c.toLower.toLower = c.toLower := by
  apply char_eq_of_toNat
  simp only [toNat_toLower]
  split_ifs <;> omega

theorem getVal_cons (k' : String) (v' : Value) (tl : Record) (k : String) :
    getVal ((k', v') :: tl) k = if k' = k then some v' else getVal tl k := rfl

theorem setVal_cons (k' : String) (v' : Value) (tl : Record) (k : String) (v : Value) :
    setVal ((k', v') :: tl) k v = if k' = k then (k, v) :: tl else (k', v') :: setVal tl k v := rfl

theorem getVal_setVal_self (r : Record) (k : String) (v : Value) :
    getVal (setVal r k v) k = some v := by
  induction r with
  | nil => simp [setVal, getVal]
  | cons hd tl ih =>
    obtain ⟨k', v'⟩ := hd
    by_cases h : k' = k
    · rw [setVal_cons, if_pos h, getVal_cons, if_pos rfl]
    · rw [setVal_cons, if_neg h, getVal_cons, if_neg h, ih]

theorem getVal_setVal_other (r : Record) (k k₂ : String) (v : Value) (hne : k₂ ≠ k) :
    getVal (setVal r k v) k₂ = getVal r k₂ := by
  induction r with
  | nil =>
    show getVal [(k, v)] k₂ = none
    rw [getVal_cons, if_neg (Ne.symm hne)]
    rfl
  | cons hd tl ih =>
    obtain ⟨k', v'⟩ := hd
    by_cases h : k' = k
    · subst h
      rw [setVal_cons, if_pos rfl, getVal_cons, getVal_cons,
        if_neg (Ne.symm hne), if_neg (Ne.symm hne)]
    · rw [setVal_cons, if_neg h, getVal_cons, getVal_cons]
      by_cases h2 : k' = k₂
      · rw [if_pos h2, if_pos h2]
      · rw [if_neg h2, if_neg h2, ih]

theorem setVal_eq_self (r : Record) (k : String) (v : Value) (h : getVal r k = some v) :
    setVal r k v = r := by
  induction r with
  | nil => simp [getVal] at h
  | cons hd tl ih =>
    obtain ⟨k', v'⟩ := hd
    by_cases hk : k' = k
    · subst hk
      rw [getVal_cons, if_pos rfl] at h
      injection h with h
      rw [setVal_cons, if_pos rfl, h]
    · rw [getVal_cons, if_neg hk] at h
      rw [setVal_cons, if_neg hk, ih h]

theorem isSome_getVal_setVal (r : Record) (k k₂ : String) (v : Value)
    (h : (getVal r k₂).isSome) : (getVal (setVal r k v) k₂).isSome := by
  by_cases hk : k₂ = k
  · subst hk
    simp [getVal_setVal_self]
  · rwa [getVal_setVal_other _ _ _ _ hk]

namespace SalesOps

/-! ## Lemmas on the scoring function -/
theorem pyInt_eq_floor (q : Rat) (h : 0 ≤ q) : pyInt q = Int.floor q := by
  rw [pyInt, if_neg (not_lt.mpr h)]

theorem pyInt_nonneg (q : Rat) (h : 0 ≤ q) : 0 ≤ pyInt q := by
  rw [pyInt_eq_floor q h]
  exact Int.floor_nonneg.mpr h

theorem pyInt_lt (q : Rat) (n : Int) (h : 0 ≤ q) (hn : q < (n : Rat)) : pyInt q < n := by
  rw [pyInt_eq_floor q h]
  exact Int.floor_lt.mpr hn

theorem pyInt_mono (a b : Rat) (ha : 0 ≤ a) (hab : a ≤ b) : pyInt a ≤ pyInt b := by
  rw [pyInt_eq_floor a ha, pyInt_eq_floor b (ha.trans hab)]
  exact Int.floor_le_floor hab

theorem weights_nonneg (k : Metric) : 0 ≤ weights k := by
  cases k <;> norm_num [weights]

theorem term_mono (c₁ c₂ : Nat) (w : Rat) (hw : 0 ≤ w) (h : c₁ ≤ c₂) :
    (if 0 < c₁ then ((min c₁ 5 : Nat) : Rat) * w else 0) ≤
      (if 0 < c₂ then ((min c₂ 5 : Nat) : Rat) * w else 0) := by
  by_cases h1 : 0 < c₁
  · rw [if_pos h1, if_pos (lt_of_lt_of_le h1 h)]
    apply mul_le_mul_of_nonneg_right _ hw
    have : min c₁ 5 ≤ min c₂ 5 := by omega
    exact_mod_cast this
  · rw [if_neg h1]
    by_cases h2 : 0 < c₂
    · rw [if_pos h2]
      exact mul_nonneg (Nat.cast_nonneg _) hw
    · rw [if_neg h2]

theorem penalty_nonneg (insights : Metric → Nat) : 0 ≤ penalty insights := by
  apply List.sum_nonneg
  intro x hx
  rw [List.mem_map] at hx
  obtain ⟨m, -, rfl⟩ := hx
  split
  · exact mul_nonneg (Nat.cast_nonneg _) (weights_nonneg m)
  · exact le_refl 0

theorem penalty_mono (insights : Metric → Nat) (k : Metric) (c₁ c₂ : Nat) (h : c₁ ≤ c₂) :
    penalty (Function.update insights k c₁) ≤ penalty (Function.update insights k c₂) := by
  apply List.sum_le_sum
  intro m _
  by_cases hm : m = k
  · subst hm
    simp only [Function.update_same]
    exact term_mono c₁ c₂ (weights m) (weights_nonneg m) h
  · simp only [Function.update_noteq hm]
    exact le_refl _

theorem remap_eq_b2 (p : Rat) (h0 : p ≠ 0) (h : p ≤ 0.5) :
    remap p = 95 + pyInt ((0.5 - p) * 10) := by
  rw [remap, if_neg h0, if_pos h]

theorem remap_eq_b3 (p : Rat) (h1 : ¬p ≤ 0.5) (h : p ≤ 2) :
    remap p = 85 + pyInt ((2 - p) * 6.67) := by
  have h0 : p ≠ 0 := by intro hh; rw [hh] at h1; norm_num at h1
  rw [remap, if_neg h0, if_neg h1, if_pos h]

theorem remap_eq_b4 (p : Rat) (h1 : ¬p ≤ 2) (h : p ≤ 5) :
    remap p = 50 + pyInt ((5 - p) * 8.33) := by
  have h0 : p ≠ 0 := by intro hh; rw [hh] at h1; norm_num at h1
  have h2 : ¬p ≤ 0.5 := by intro hh; exact h1 (hh.trans (by norm_num))
  rw [remap, if_neg h0, if_neg h2, if_neg h1, if_pos h]

theorem remap_eq_b5 (p : Rat) (h1 : ¬p ≤ 5) :
    remap p = max 10 (50 - pyInt ((p - 5) * 4)) := by
  have h0 : p ≠ 0 := by intro hh; rw [hh] at h1; norm_num at h1
  have h2 : ¬p ≤ 0.5 := by intro hh; exact h1 (hh.trans (by norm_num))
  have h3 : ¬p ≤ 2 := by intro hh; exact h1 (hh.trans (by norm_num))
  rw [remap, if_neg h0, if_neg h2, if_neg h3, if_neg h1]

theorem remap_b2_range (p : Rat) (h0 : 0 < p) (h : p ≤ 0.5) :
    95 ≤ remap p ∧ remap p ≤ 99 := by
  rw [remap_eq_b2 p h0.ne' h]
  have ha : (0 : Rat) ≤ (0.5 - p) * 10 := by nlinarith
  have hb : (0.5 - p) * 10 < ((5 : Int) : Rat) := by push_cast; nlinarith
  have l1 := pyInt_nonneg _ ha
  have l2 := pyInt_lt _ 5 ha hb
  omega

theorem remap_b3_range (p : Rat) (h1 : ¬p ≤ 0.5) (h : p ≤ 2) :
    85 ≤ remap p ∧ remap p ≤ 95 := by
  rw [remap_eq_b3 p h1 h]
  push_neg at h1
  have ha : (0 : Rat) ≤ (2 - p) * 6.67 := by nlinarith
  have hb : (2 - p) * 6.67 < ((11 : Int) : Rat) := by push_cast; nlinarith
  have l1 := pyInt_nonneg _ ha
  have l2 := pyInt_lt _ 11 ha hb
  omega

theorem remap_b4_range (p : Rat) (h1 : ¬p ≤ 2) (h : p ≤ 5) :
    50 ≤ remap p ∧ remap p ≤ 74 := by
  rw [remap_eq_b4 p h1 h]
  push_neg at h1
  have ha : (0 : Rat) ≤ (5 - p) * 8.33 := by nlinarith
  have hb : (5 - p) * 8.33 < ((25 : Int) : Rat) := by push_cast; nlinarith
  have l1 := pyInt_nonneg _ ha
  have l2 := pyInt_lt _ 25 ha hb
  omega

theorem remap_b5_range (p : Rat) (h1 : ¬p ≤ 5) :
    10 ≤ remap p ∧ remap p ≤ 50 := by
  rw [remap_eq_b5 p h1]
  push_neg at h1
  have ha : (0 : Rat) ≤ (p - 5) * 4 := by nlinarith
  have l1 := pyInt_nonneg _ ha
  constructor
  · exact le_max_left _ _
  · apply max_le (by omega) (by omega)

theorem remap_bounds (p : Rat) (hp : 0 ≤ p) : 10 ≤ remap p ∧ remap p ≤ 100 := by
  by_cases h0 : p = 0
  · rw [remap, if_pos h0]
    omega
  by_cases hb2 : p ≤ 0.5
  · have := remap_b2_range p (lt_of_le_of_ne hp (Ne.symm h0)) hb2
    omega
  by_cases hb3 : p ≤ 2
  · have := remap_b3_range p hb2 hb3
    omega
  by_cases hb4 : p ≤ 5
  · have := remap_b4_range p hb3 hb4
    omega
  · have := remap_b5_range p hb4
    omega

theorem remap_antitone (p₁ p₂ : Rat) (hp : 0 ≤ p₁) (h : p₁ ≤ p₂) :
    remap p₂ ≤ remap p₁ := by
  by_cases h0 : p₁ = 0
  · have he : remap p₁ = 100 := by rw [remap, if_pos h0]
    rw [he]
    exact (remap_bounds p₂ (h0 ▸ h)).2
  have hpos : 0 < p₁ := lt_of_le_of_ne hp (Ne.symm h0)
  have hpos2 : 0 < p₂ := lt_of_lt_of_le hpos h
  by_cases hb2 : p₁ ≤ 0.5
  · by_cases hc2 : p₂ ≤ 0.5
    · rw [remap_eq_b2 p₁ h0 hb2, remap_eq_b2 p₂ hpos2.ne' hc2]
      have := pyInt_mono ((0.5 - p₂) * 10) ((0.5 - p₁) * 10) (by nlinarith) (by nlinarith)
      omega
    · have hr1 := remap_b2_range p₁ hpos hb2
      by_cases hc3 : p₂ ≤ 2
      · have := remap_b3_range p₂ hc2 hc3
        omega
      by_cases hc4 : p₂ ≤ 5
      · have := remap_b4_range p₂ hc3 hc4
        omega
      · have := remap_b5_range p₂ hc4
        omega
  by_cases hb3 : p₁ ≤ 2
  · by_cases hc3 : p₂ ≤ 2
    · have hc2 : ¬p₂ ≤ 0.5 := fun hh => hb2 (h.trans hh)
      rw [remap_eq_b3 p₁ hb2 hb3, remap_eq_b3 p₂ hc2 hc3]
      have := pyInt_mono ((2 - p₂) * 6.67) ((2 - p₁) * 6.67) (by nlinarith) (by nlinarith)
      omega
    · have hr1 := remap_b3_range p₁ hb2 hb3
      by_cases hc4 : p₂ ≤ 5
      · have := remap_b4_range p₂ hc3 hc4
        omega
      · have := remap_b5_range p₂ hc4
        omega
  by_cases hb4 : p₁ ≤ 5
  · by_cases hc4 : p₂ ≤ 5
    · have hc3 : ¬p₂ ≤ 2 := fun hh => hb3 (h.trans hh)
      rw [remap_eq_b4 p₁ hb3 hb4, remap_eq_b4 p₂ hc3 hc4]
      have := pyInt_mono ((5 - p₂) * 8.33) ((5 - p₁) * 8.33) (by nlinarith) (by nlinarith)
      omega
    · have hr1 := remap_b4_range p₁ hb3 hb4
      have := remap_b5_range p₂ hc4
      omega
  · have hc4 : ¬p₂ ≤ 5 := fun hh => hb4 (h.trans hh)
    rw [remap_eq_b5 p₁ hb4, remap_eq_b5 p₂ hc4]
    push_neg at hb4
    have := pyInt_mono ((p₁ - 5) * 4) ((p₂ - 5) * 4) (by nlinarith) (by nlinarith)
    omega

theorem penalty_all_zero : penalty (fun _ => 0) = 0 := by
  norm_num [penalty, metricList]

theorem validate_eq (r : Record) : validate r = emailErrs r ++ phoneErrs r ++ amountErrs r := rfl

theorem emailErrs_cases (r : Record) : emailErrs r = [] ∨ emailErrs r = ["Invalid email"] := by
  rw [emailErrs]
  rcases hE : getVal r "email" with _ | v <;> simp only [hE]
  · simp
  · by_cases h : emailMatch (pyStr v) = true
    · exact Or.inl (by rw [if_pos h])
    · exact Or.inr (by rw [if_neg h])

theorem phoneErrs_cases (r : Record) :
    phoneErrs r = [] ∨ phoneErrs r = ["Invalid phone number"] := by
  rw [phoneErrs]
  rcases hP : getVal r "phone" with _ | v <;> simp only [hP]
  · simp
  · by_cases h : phoneMatch (pyStr v) = true
    · exact Or.inl (by rw [if_pos h])
    · exact Or.inr (by rw [if_neg h])

theorem amountErrs_cases (r : Record) :
    amountErrs r = [] ∨ amountErrs r = ["Negative amount"] ∨ amountErrs r = ["Invalid amount"] := by
  rw [amountErrs]
  rcases hA : getVal r "amount" with _ | v <;> simp only [hA]
  · simp
  · rcases hF : pyFloatOfValue v with _ | f <;> simp only [hF]
    · simp
    · by_cases h : pyFloatNeg f = true
      · exact Or.inr (Or.inl (by rw [if_pos h]))
      · exact Or.inl (by rw [if_neg h])

theorem mem_emailErrs (r : Record) (x : String) (hx : x ∈ emailErrs r) : x = "Invalid email" := by
  rcases emailErrs_cases r with h | h <;> rw [h] at hx
  · cases hx
  · simpa using hx

theorem mem_phoneErrs (r : Record) (x : String) (hx : x ∈ phoneErrs r) :
    x = "Invalid phone number" := by
  rcases phoneErrs_cases r with h | h <;> rw [h] at hx
  · cases hx
  · simpa using hx

theorem mem_validate_amount (r : Record) (x : String) (h1 : x ≠ "Invalid email")
    (h2 : x ≠ "Invalid phone number") : x ∈ validate r ↔ x ∈ amountErrs r := by
  rw [validate_eq, List.mem_append, List.mem_append]
  constructor
  · rintro ((h | h) | h)
    · exact absurd (mem_emailErrs r x h) h1
    · exact absurd (mem_phoneErrs r x h) h2
    · exact h
  · intro h
    exact Or.inr h

theorem invalid_amount_mem (r : Record) :
    "Invalid amount" ∈ amountErrs r ↔
      ∃ v, getVal r "amount" = some v ∧ pyFloatOfValue v = none := by
  rw [amountErrs]
  rcases hA : getVal r "amount" with _ | v <;> simp only [hA]
  · simp
  · rcases hF : pyFloatOfValue v with _ | f <;> simp only [hF]
    · simp [hF]
    · by_cases hN : pyFloatNeg f = true
      · rw [if_pos hN]
        simp [hF]
      · rw [if_neg hN]
        simp [hF]

theorem negative_amount_mem (r : Record) :
    "Negative amount" ∈ amountErrs r ↔
      ∃ v f, getVal r "amount" = some v ∧ pyFloatOfValue v = some f ∧ pyFloatNeg f = true := by
  rw [amountErrs]
  rcases hA : getVal r "amount" with _ | v <;> simp only [hA]
  · simp
  · rcases hF : pyFloatOfValue v with _ | f <;> simp only [hF]
    · simp [hF]
    · by_cases hN : pyFloatNeg f = true
      · rw [if_pos hN]
        simp [hF, hN]
      · rw [if_neg hN]
        simp [hF, hN]

/-! ## Claims -/
/-- C1: for every InsightMap (a total mapping from the 12 metric names to
natural-number counts), calculate_health_score returns an integer between
the floor of 10 and 100, and returns exactly 100 when every metric count
is zero. -/
theorem claim1_score_bounds :
    (∀ insights : Metric → Nat,
      10 ≤ calculate_health_score insights ∧ calculate_health_score insights ≤ 100) ∧
    calculate_health_score (fun _ => 0) = 100 := by
  constructor
  · intro insights
    exact remap_bounds (penalty insights) (penalty_nonneg insights)
  · rw [calculate_health_score, penalty_all_zero, remap, if_pos rfl]

/-- C2: calculate_health_score is monotonically non-increasing as any one
metric count increases while the others stay fixed. -/
theorem claim2_score_antitone (insights : Metric → Nat) (k : Metric) (c₁ c₂ : Nat)
    (h : c₁ ≤ c₂) :
    calculate_health_score (Function.update insights k c₂) ≤
      calculate_health_score (Function.update insights k c₁) :=
  remap_antitone _ _ (penalty_nonneg _) (penalty_mono insights k c₁ c₂ h)

/-- C2 witness: the monotonicity theorem applied at a concrete InsightMap
and metric, raising the duplicate count from 1 to 3. -/
theorem claim2_witness :
    (1 : Nat) ≤ 3 ∧
      calculate_health_score (Function.update (fun _ => 0) Metric.duplicateRecords 3) ≤
        calculate_health_score (Function.update (fun _ => 0) Metric.duplicateRecords 1) :=
  ⟨by norm_num, claim2_score_antitone (fun _ => 0) Metric.duplicateRecords 1 3 (by norm_num)⟩

/-- C7: validate never reports Invalid amount and Negative amount together;
Invalid amount appears exactly when the amount field is present and float()
fails on it, Negative amount exactly when float() succeeds with a negative
value; the error list is a sublist of the fixed order email error, phone
error, amount error; it is empty when no configured field is present, and
empty when every present configured field passes. -/
theorem claim7_validate (r : Record) :
    ¬("Invalid amount" ∈ validate r ∧ "Negative amount" ∈ validate r) ∧
    ("Invalid amount" ∈ validate r ↔
      ∃ v, getVal r "amount" = some v ∧ pyFloatOfValue v = none) ∧
    ("Negative amount" ∈ validate r ↔
      ∃ v f, getVal r "amount" = some v ∧ pyFloatOfValue v = some f ∧ pyFloatNeg f = true) ∧
    (validate r).Sublist
      ["Invalid email", "Invalid phone number", "Invalid amount", "Negative amount"] ∧
    (getVal r "email" = none → getVal r "phone" = none → getVal r "amount" = none →
      validate r = []) ∧
    ((∀ v, getVal r "email" = some v → emailMatch (pyStr v) = true) →
     (∀ v, getVal r "phone" = some v → phoneMatch (pyStr v) = true) →
     (∀ v, getVal r "amount" = some v →
        ∃ f, pyFloatOfValue v = some f ∧ pyFloatNeg f = false) →
      validate r = []) := by
  refine ⟨?_, ?_, ?_, ?_, ?_, ?_⟩
  · rintro ⟨h1, h2⟩
    rw [mem_validate_amount r _ (by decide) (by decide), invalid_amount_mem] at h1
    rw [mem_validate_amount r _ (by decide) (by decide), negative_amount_mem] at h2
    obtain ⟨v, hv, hf⟩ := h1
    obtain ⟨v', f, hv', hf', -⟩ := h2
    rw [hv] at hv'
    injection hv' with hv'
    rw [hv'] at hf
    rw [hf] at hf'
    exact Option.noConfusion hf'
  · rw [mem_validate_amount r _ (by decide) (by decide)]
    exact invalid_amount_mem r
  · rw [mem_validate_amount r _ (by decide) (by decide)]
    exact negative_amount_mem r
  · rcases emailErrs_cases r with hE | hE <;> rcases phoneErrs_cases r with hP | hP <;>
      rcases amountErrs_cases r with hA | hA | hA <;>
        rw [validate_eq, hE, hP, hA] <;> decide
  · intro hE hP hA
    rw [validate_eq, emailErrs, hE, phoneErrs, hP, amountErrs, hA]
    rfl
  · intro hE hP hA
    rw [validate_eq]
    have he : emailErrs r = [] := by
      rw [emailErrs]
      rcases h : getVal r "email" with _ | v <;> simp only [h]
      simp [hE v h]
    have hp : phoneErrs r = [] := by
      rw [phoneErrs]
      rcases h : getVal r "phone" with _ | v <;> simp only [h]
      simp [hP v h]
    have ha : amountErrs r = [] := by
      rw [amountErrs]
      rcases h : getVal r "amount" with _ | v <;> simp only [h]
      obtain ⟨f, hf, hneg⟩ := hA v h
      simp [hf, hneg]
    rw [he, hp, ha]
    rfl

/-- C7 witness: the validator theorem applied at a concrete record whose
three configured fields all pass, concluding an empty error list. -/
theorem claim7_witness :
    validate [("email", Value.str "a@b.c"), ("phone", Value.str "1234567"),
      ("amount", Value.num 5)] = [] := by
  apply (claim7_validate _).2.2.2.2.2
  · intro v hv
    rw [show getVal [("email", Value.str "a@b.c"), ("phone", Value.str "1234567"),
      ("amount", Value.num 5)] "email" = some (Value.str "a@b.c") from rfl] at hv
    injection hv with hv
    rw [← hv]
    decide
  · intro v hv
    rw [show getVal [("email", Value.str "a@b.c"), ("phone", Value.str "1234567"),
      ("amount", Value.num 5)] "phone" = some (Value.str "1234567") from rfl] at hv
    injection hv with hv
    rw [← hv]
    decide
  · intro v hv
    rw [show getVal [("email", Value.str "a@b.c"), ("phone", Value.str "1234567"),
      ("amount", Value.num 5)] "amount" = some (Value.num 5) from rfl] at hv
    injection hv with hv
    rw [← hv]
    refine ⟨.num 5, rfl, ?_⟩
    norm_num [pyFloatNeg]

/-- Folding enrich one source entry at a time. -/
theorem enrich_cons (r : Record) (k' : String) (v' : Value) (src : List (String × Value)) :
    enrich r ((k', v') :: src) =
      enrich (if pyTruthy ((getVal r k').getD .null) then r else setVal r k' v') src := by
  rw [enrich, List.foldl_cons]
  rfl

theorem enrich_preserves_truthy (src : List (String × Value)) :
    ∀ (r : Record) (k : String) (v : Value), getVal r k = some v → pyTruthy v = true →
      getVal (enrich r src) k = some v := by
  induction src with
  | nil => intro r k v h _; exact h
  | cons kv src ih =>
    intro r k v h ht
    obtain ⟨k', v'⟩ := kv
    rw [enrich_cons]
    by_cases hk : k' = k
    · subst hk
      have hh : pyTruthy ((getVal r k').getD Value.null) = true := by
        rw [h]
        exact ht
      rw [if_pos hh]
      exact ih r k' v h ht
    · by_cases htr : pyTruthy ((getVal r k').getD .null) = true
      · rw [if_pos htr]
        exact ih r k v h ht
      · rw [if_neg htr]
        refine ih _ k v ?_ ht
        rw [getVal_setVal_other _ _ _ _ (fun hh => hk hh.symm), h]

theorem enrich_preserves_isSome (src : List (String × Value)) :
    ∀ (r : Record) (k : String), (getVal r k).isSome → (getVal (enrich r src) k).isSome := by
  induction src with
  | nil => intro r k h; exact h
  | cons kv src ih =>
    intro r k h
    obtain ⟨k', v'⟩ := kv
    rw [enrich_cons]
    by_cases htr : pyTruthy ((getVal r k').getD .null) = true
    · rw [if_pos htr]
      exact ih r k h
    · rw [if_neg htr]
      exact ih _ k (isSome_getVal_setVal r k' k v' h)

/-- C9: enrich never changes a field that is present with a truthy value,
never removes a field, and with an empty enrichment source returns the
record unchanged. -/
theorem claim9_enrich (r : Record) (src : List (String × Value)) :
    (∀ k v, getVal r k = some v → pyTruthy v = true → getVal (enrich r src) k = some v) ∧
    (∀ k, (getVal r k).isSome → (getVal (enrich r src) k).isSome) ∧
    enrich r [] = r :=
  ⟨fun k v h ht => enrich_preserves_truthy src r k v h ht,
   fun k h => enrich_preserves_isSome src r k h,
   rfl⟩

/-- C9 witness: the enrich theorem at a concrete record and source, showing
a present truthy email survives an enrichment that targets it. -/
theorem claim9_witness :
    getVal (enrich [("email", Value.str "x")]
      [("email", Value.str "y"), ("note", Value.str "z")]) "email" = some (Value.str "x") :=
  (claim9_enrich [("email", Value.str "x")]
    [("email", Value.str "y"), ("note", Value.str "z")]).1 "email" (Value.str "x") rfl
    (by decide)

/-! ## Lemmas on normalize -/
theorem pyTitleAux_idem (l : List Char) :
    ∀ b, pyTitleAux b (pyTitleAux b l) = pyTitleAux b l := by
  induction l with
  | nil => intro b; rfl
  | cons c cs ih =>
    intro b
    by_cases hc : c.isAlpha = true
    · cases b
      · simp only [pyTitleAux, hc, if_true, Bool.false_eq_true, if_false, isAlpha_toUpper,
          toUpper_toUpper]
        rw [ih true]
      · simp only [pyTitleAux, hc, if_true, isAlpha_toLower, toLower_toLower]
        rw [ih true]
    · simp only [pyTitleAux, hc, Bool.false_eq_true, if_false]
      rw [ih false]

theorem pyTitle_idem (s : String) : pyTitle (pyTitle s) = pyTitle s :=
  congrArg String.mk (pyTitleAux_idem s.data false)

theorem stripNonDigits_idem (s : String) :
    stripNonDigits (stripNonDigits s) = stripNonDigits s :=
  congrArg String.mk
    (List.filter_eq_self.mpr fun _ ha => (List.mem_filter.mp ha).2)

theorem titleF_fix (s : String) : titleF (.str (pyTitle s)) = .ok (.str (pyTitle s)) := by
  show Except.ok (Value.str (pyTitle (pyTitle s))) = _
  rw [pyTitle_idem]

theorem phoneF_fix (t : String) :
    phoneF (.str (stripNonDigits t)) = .ok (.str (stripNonDigits t)) := by
  show Except.ok (Value.str (stripNonDigits (pyStr (.str (stripNonDigits t))))) = _
  show Except.ok (Value.str (stripNonDigits (stripNonDigits t))) = _
  rw [stripNonDigits_idem]

theorem normStep_post (key : String) (f : Value → Except String Value) (r r' : Record)
    (h : normStep key f r = .ok r') :
    ((getVal r key = none ∨ ∃ v, getVal r key = some v ∧ pyTruthy v = false) ∧ r' = r) ∨
    (∃ v v', getVal r key = some v ∧ pyTruthy v = true ∧ f v = .ok v' ∧
      r' = setVal r key v') := by
  rw [normStep] at h
  rcases hg : getVal r key with _ | v <;> simp only [hg] at h
  · injection h with h
    exact Or.inl ⟨Or.inl rfl, h.symm⟩
  · by_cases ht : pyTruthy v = true
    · rw [if_pos ht] at h
      rcases hf : f v with e | v' <;> simp only [hf] at h
      · cases h
      · injection h with h
        exact Or.inr ⟨v, v', rfl, ht, hf, h.symm⟩
    · rw [if_neg ht] at h
      injection h with h
      exact Or.inl ⟨Or.inr ⟨v, rfl, by simpa using ht⟩, h.symm⟩

theorem normStep_frame (key : String) (f : Value → Except String Value) (r r' : Record)
    (h : normStep key f r = .ok r') (k : String) (hk : k ≠ key) :
    getVal r' k = getVal r k := by
  rcases normStep_post key f r r' h with ⟨-, rfl⟩ | ⟨v, v', -, -, -, rfl⟩
  · rfl
  · exact getVal_setVal_other r key k v' hk

theorem normStep_self (key : String) (f : Value → Except String Value) (r : Record)
    (h : ∀ v, getVal r key = some v → pyTruthy v = true → f v = .ok v) :
    normStep key f r = .ok r := by
  rw [normStep]
  rcases hg : getVal r key with _ | v <;> simp only [hg]
  by_cases ht : pyTruthy v = true
  · rw [if_pos ht]
    simp only [h v hg ht, setVal_eq_self r key v hg]
  · rw [if_neg ht]

theorem normalize_parts (r r3 : Record) (h : normalize r = .ok r3) :
    ∃ r1 r2, normStep "first_name" titleF r = .ok r1 ∧
      normStep "last_name" titleF r1 = .ok r2 ∧ normStep "phone" phoneF r2 = .ok r3 := by
  rw [normalize] at h
  rcases h1 : normStep "first_name" titleF r with e | r1 <;> simp only [h1] at h
  · cases h
  · rcases h2 : normStep "last_name" titleF r1 with e | r2 <;> simp only [h2] at h
    · cases h
    · exact ⟨r1, r2, rfl, h2, h⟩

/-- After a successful title step, the key either kept its old value (absent
or falsy) or holds the title-cased string. -/
theorem titleStep_value (key : String) (r r' : Record)
    (h : normStep key titleF r = .ok r') :
    ∀ v, getVal r' key = some v → pyTruthy v = true → titleF v = .ok v := by
  intro v hv ht
  rcases normStep_post key titleF r r' h with ⟨hA, rfl⟩ | ⟨w, w', hw, hwt, hf, rfl⟩
  · rcases hA with hn | ⟨u, hu, hut⟩
    · rw [hn] at hv
      cases hv
    · rw [hu] at hv
      injection hv with hv
      rw [hv, ht] at hut
      cases hut
  · rw [getVal_setVal_self] at hv
    injection hv with hv
    rcases w with s | q | b | _
    · injection hf with hf
      rw [← hv, ← hf]
      exact titleF_fix s
    all_goals cases hf

/-- After a successful phone step, a truthy phone value is already a fixed
point of the digit-stripping rewrite. -/
theorem phoneStep_value (r r' : Record) (h : normStep "phone" phoneF r = .ok r') :
    ∀ v, getVal r' "phone" = some v → pyTruthy v = true → phoneF v = .ok v := by
  intro v hv ht
  rcases normStep_post "phone" phoneF r r' h with ⟨hA, rfl⟩ | ⟨w, w', hw, hwt, hf, rfl⟩
  · rcases hA with hn | ⟨u, hu, hut⟩
    · rw [hn] at hv
      cases hv
    · rw [hu] at hv
      injection hv with hv
      rw [hv, ht] at hut
      cases hut
  · rw [getVal_setVal_self] at hv
    injection hv with hv
    injection hf with hf
    rw [← hv, ← hf]
    exact phoneF_fix (pyStr w)

/-- C8: normalize is idempotent on every record it succeeds on, and every
field other than first_name, last_name and phone passes through unchanged
(the source copies the record, so the input itself is never mutated; the
pure embedding renders that by construction). -/
theorem claim8_normalize (r r' : Record) (h : normalize r = .ok r') :
    normalize r' = .ok r' ∧
    (∀ k, k ≠ "first_name" → k ≠ "last_name" → k ≠ "phone" →
      getVal r' k = getVal r k) := by
  obtain ⟨r1, r2, h1, h2, h3⟩ := normalize_parts r r' h
  have e21 : getVal r2 "first_name" = getVal r1 "first_name" :=
    normStep_frame "last_name" titleF r1 r2 h2 _ (by decide)
  have e32 : getVal r' "first_name" = getVal r2 "first_name" :=
    normStep_frame "phone" phoneF r2 r' h3 _ (by decide)
  have e31 : getVal r' "last_name" = getVal r2 "last_name" :=
    normStep_frame "phone" phoneF r2 r' h3 _ (by decide)
  have s1 : normStep "first_name" titleF r' = .ok r' := by
    apply normStep_self
    intro v hv ht
    rw [e32, e21] at hv
    exact titleStep_value "first_name" r r1 h1 v hv ht
  have s2 : normStep "last_name" titleF r' = .ok r' := by
    apply normStep_self
    intro v hv ht
    rw [e31] at hv
    exact titleStep_value "last_name" r1 r2 h2 v hv ht
  have s3 : normStep "phone" phoneF r' = .ok r' := by
    apply normStep_self
    intro v hv ht
    exact phoneStep_value r2 r' h3 v hv ht
  constructor
  · rw [normalize]
    simp only [s1, s2, s3]
  · intro k hk1 hk2 hk3
    calc getVal r' k = getVal r2 k := normStep_frame "phone" phoneF r2 r' h3 k hk3
      _ = getVal r1 k := normStep_frame "last_name" titleF r1 r2 h2 k hk2
      _ = getVal r k := normStep_frame "first_name" titleF r r1 h1 k hk1

/-- C8 witness: the normalize theorem at a concrete record, concluding that
a second application is the identity and the untouched field kept its
value. -/
theorem claim8_witness :
    normalize [("first_name", Value.str "John Doe"), ("note", Value.num 7)] =
      .ok [("first_name", Value.str "John Doe"), ("note", Value.num 7)] ∧
    getVal [("first_name", Value.str "John Doe"), ("note", Value.num 7)] "note" =
      getVal [("first_name", Value.str "john doe"), ("note", Value.num 7)] "note" :=
  ⟨(claim8_normalize [("first_name", Value.str "john doe"), ("note", Value.num 7)]
      [("first_name", Value.str "John Doe"), ("note", Value.num 7)] (by rfl)).1,
   (claim8_normalize [("first_name", Value.str "john doe"), ("note", Value.num 7)]
      [("first_name", Value.str "John Doe"), ("note", Value.num 7)] (by rfl)).2
      "note" (by decide) (by decide) (by decide)⟩

/-! ## Lemmas on find_duplicates -/
theorem lcs_nil_right (l : List Char) : lcs l [] = 0 := by
  cases l <;> simp [lcs]

theorem lcs_cons (a : Char) (as : List Char) (b : Char) (bs : List Char) :
    lcs (a :: as) (b :: bs) =
      if a = b then lcs as bs + 1 else max (lcs (a :: as) bs) (lcs as (b :: bs)) := by
  rw [lcs]

theorem lcs_comm (l1 : List Char) : ∀ l2, lcs l1 l2 = lcs l2 l1 := by
  induction l1 with
  | nil =>
    intro l2
    rw [lcs_nil_right l2]
    simp [lcs]
  | cons a as ih =>
    intro l2
    induction l2 with
    | nil =>
      rw [lcs_nil_right (a :: as)]
      simp [lcs]
    | cons b bs ihb =>
      by_cases hab : a = b
      · subst hab
        rw [lcs_cons, lcs_cons, if_pos rfl, if_pos rfl, ih bs]
      · rw [lcs_cons, lcs_cons, if_neg hab, if_neg (Ne.symm hab), ihb, ih (b :: bs)]
        exact Nat.max_comm _ _

theorem fuzzRatio_self (s : String) : fuzzRatio s s = 100 := by
  rw [fuzzRatio, if_pos rfl]

theorem fuzzRatio_comm (s t : String) : fuzzRatio s t = fuzzRatio t s := by
  rw [fuzzRatio, fuzzRatio]
  by_cases hst : s = t
  · rw [if_pos hst, if_pos hst.symm]
  · rw [if_neg hst, if_neg (Ne.symm hst), lcs_comm s.data t.data,
      Nat.add_comm s.length t.length, Bool.or_comm]

theorem fdScore_comm (records : List Record) (key : String) (i j : Nat) :
    fdScore records key i j = fdScore records key j i :=
  fuzzRatio_comm _ _

theorem rowSpec_cons (score : Nat → Nat → Nat) (i j : Nat) (js : List Nat) :
    rowSpec score i (j :: js) =
      (if i < j ∧ 90 < score i j then [(i, j)] else []) ++ rowSpec score i js := by
  rw [rowSpec, rowSpec, List.filter_cons]
  by_cases h : i < j ∧ 90 < score i j
  · rw [if_pos (by simp [h.1, h.2]), if_pos h]
    rfl
  · rw [if_neg (by simpa using h), if_neg h]
    rfl

theorem mem_rowSpec (score : Nat → Nat → Nat) (i : Nat) (js : List Nat) (p : Nat × Nat) :
    p ∈ rowSpec score i js ↔ p.1 = i ∧ p.2 ∈ js ∧ i < p.2 ∧ 90 < score i p.2 := by
  obtain ⟨a, b⟩ := p
  simp only [rowSpec, List.mem_map, List.mem_filter, Bool.and_eq_true, decide_eq_true_eq,
    Prod.mk.injEq]
  constructor
  · rintro ⟨j, ⟨hj, hij, hsc⟩, rfl, rfl⟩
    exact ⟨rfl, hj, hij, hsc⟩
  · rintro ⟨rfl, hj, hij, hsc⟩
    exact ⟨b, ⟨hj, hij, hsc⟩, rfl, rfl⟩

theorem mem_dupSpecUpTo (score : Nat → Nat → Nat) (n m : Nat) (a b : Nat) :
    (a, b) ∈ dupSpecUpTo score n m ↔ a < m ∧ b < n ∧ a < b ∧ 90 < score a b := by
  simp only [dupSpecUpTo, List.mem_flatMap, List.mem_range]
  constructor
  · rintro ⟨i, hi, hmem⟩
    obtain ⟨h1, h2, h3, h4⟩ := (mem_rowSpec score i _ _).mp hmem
    simp only at h1 h2 h3 h4
    subst h1
    exact ⟨hi, List.mem_range.mp h2, h3, h4⟩
  · rintro ⟨ha, hb, hab, hsc⟩
    exact ⟨a, ha, (mem_rowSpec score a _ _).mpr ⟨rfl, List.mem_range.mpr hb, hab, hsc⟩⟩

theorem dupSpecUpTo_succ (score : Nat → Nat → Nat) (n m : Nat) :
    dupSpecUpTo score n (m + 1) = dupSpecUpTo score n m ++ rowSpec score m (List.range n) := by
  rw [dupSpecUpTo, dupSpecUpTo, List.range_succ, List.flatMap_append]
  simp

theorem inner_fold (score : Nat → Nat → Nat) (hsym : ∀ a b, score a b = score b a)
    (i : Nat) (L : List (Nat × Nat))
    (hL : ∀ j, ((j, i) ∈ L ↔ (j < i ∧ 90 < score j i))) :
    ∀ (js : List Nat) (R : List (Nat × Nat)), (∀ p ∈ R, p.1 = i ∧ i < p.2) →
      List.foldl (fun st j => fdStep score st i j) (L ++ R, L ++ R) js =
        (L ++ (R ++ rowSpec score i js), L ++ (R ++ rowSpec score i js)) := by
  intro js
  induction js with
  | nil =>
    intro R hR
    simp [rowSpec]
  | cons j js ih =>
    intro R hR
    rw [List.foldl_cons]
    by_cases hij : i = j
    · have hstep : fdStep score (L ++ R, L ++ R) i j = (L ++ R, L ++ R) := by
        rw [fdStep, if_neg]
        rintro ⟨h1, -⟩
        exact h1 hij
      rw [hstep, rowSpec_cons, if_neg (by rintro ⟨h1, -⟩; omega)]
      exact ih R hR
    · by_cases hji : (j, i) ∈ L
      · -- mirrored pair already seen: skipped, and not in the spec either
        have hcond : j < i ∧ 90 < score j i := (hL j).mp hji
        have hstep : fdStep score (L ++ R, L ++ R) i j = (L ++ R, L ++ R) := by
          rw [fdStep, if_neg]
          rintro ⟨-, h2⟩
          exact h2 (List.mem_append_left R hji)
        rw [hstep, rowSpec_cons, if_neg (by omega)]
        exact ih R hR
      · have hnot : (j, i) ∉ L ++ R := by
          intro hmem
          rcases List.mem_append.mp hmem with hmem | hmem
          · exact hji hmem
          · exact hij ((hR (j, i) hmem).1.symm)
        by_cases hlt : i < j
        · by_cases hsc : 90 < score i j
          · have hstep : fdStep score (L ++ R, L ++ R) i j =
                (L ++ R ++ [(i, j)], L ++ R ++ [(i, j)]) := by
              rw [fdStep, if_pos ⟨hij, hnot⟩, if_pos hsc]
            rw [hstep, rowSpec_cons, if_pos ⟨hlt, hsc⟩]
            have hR' : ∀ p ∈ R ++ [(i, j)], p.1 = i ∧ i < p.2 := by
              intro p hp
              rcases List.mem_append.mp hp with hp | hp
              · exact hR p hp
              · rcases List.mem_singleton.mp hp with rfl
                exact ⟨rfl, hlt⟩
            have hih := ih (R ++ [(i, j)]) hR'
            rw [List.append_assoc L R [(i, j)], hih]
            simp [List.append_assoc]
          · have hstep : fdStep score (L ++ R, L ++ R) i j = (L ++ R, L ++ R) := by
              rw [fdStep, if_pos ⟨hij, hnot⟩, if_neg hsc]
            rw [hstep, rowSpec_cons, if_neg (by tauto)]
            exact ih R hR
        · have hsc : ¬90 < score i j := by
            rw [hsym i j]
            intro hgt
            exact hji ((hL j).mpr ⟨by omega, hgt⟩)
          have hstep : fdStep score (L ++ R, L ++ R) i j = (L ++ R, L ++ R) := by
            rw [fdStep, if_pos ⟨hij, hnot⟩, if_neg hsc]
          rw [hstep, rowSpec_cons, if_neg (by tauto)]
          exact ih R hR

theorem outer_fold (score : Nat → Nat → Nat) (hsym : ∀ a b, score a b = score b a)
    (n : Nat) :
    ∀ (k m : Nat), m + k = n →
      List.foldl
        (fun st i => List.foldl (fun st' j => fdStep score st' i j) st (List.range n))
        (dupSpecUpTo score n m, dupSpecUpTo score n m) (List.range' m k) =
      (dupSpec score n, dupSpec score n) := by
  intro k
  induction k with
  | zero =>
    intro m hm
    rw [List.range'_zero, List.foldl_nil, dupSpec]
    rw [show m = n by omega]
  | succ k ih =>
    intro m hm
    rw [List.range'_succ, List.foldl_cons]
    have hL : ∀ j, ((j, m) ∈ dupSpecUpTo score n m ↔ (j < m ∧ 90 < score j m)) := by
      intro j
      rw [mem_dupSpecUpTo]
      constructor
      · rintro ⟨h1, -, -, h4⟩
        exact ⟨h1, h4⟩
      · rintro ⟨h1, h2⟩
        exact ⟨h1, by omega, h1, h2⟩
    have hinner := inner_fold score hsym m (dupSpecUpTo score n m) hL (List.range n) []
      (by intro p hp; cases hp)
    simp only [List.append_nil, List.nil_append] at hinner
    rw [hinner, ← dupSpecUpTo_succ]
    exact ih (m + 1) (by omega)

theorem find_duplicates_eq (records : List Record) (key : String) :
    find_duplicates records key =
      dupSpec (fdScore records key) records.length := by
  rw [find_duplicates]
  have h0 : dupSpecUpTo (fdScore records key) records.length 0 = [] := rfl
  have := outer_fold (fdScore records key) (fdScore_comm records key) records.length
    records.length 0 (by omega)
  rw [h0, ← List.range_eq_range'] at this
  rw [this]

theorem mem_find_duplicates (records : List Record) (key : String) (a b : Nat) :
    (a, b) ∈ find_duplicates records key ↔
      b < records.length ∧ a < b ∧ 90 < fdScore records key a b := by
  rw [find_duplicates_eq, dupSpec, mem_dupSpecUpTo]
  omega

theorem rowSpec_pairwise (score : Nat → Nat → Nat) (i : Nat) (js : List Nat)
    (h : List.Pairwise (· < ·) js) :
    List.Pairwise (fun p q : Nat × Nat => p.1 < q.1 ∨ (p.1 = q.1 ∧ p.2 < q.2))
      (rowSpec score i js) := by
  rw [rowSpec, List.pairwise_map]
  exact (h.filter _).imp fun hab => Or.inr ⟨rfl, hab⟩

theorem dupSpecUpTo_pairwise (score : Nat → Nat → Nat) (n : Nat) :
    ∀ m, List.Pairwise (fun p q : Nat × Nat => p.1 < q.1 ∨ (p.1 = q.1 ∧ p.2 < q.2))
      (dupSpecUpTo score n m) := by
  intro m
  induction m with
  | zero => simp [dupSpecUpTo]
  | succ m ih =>
    rw [dupSpecUpTo_succ, List.pairwise_append]
    refine ⟨ih, rowSpec_pairwise score m _ (List.pairwise_lt_range n), ?_⟩
    intro p hp q hq
    have hpm : p.1 < m := by
      obtain ⟨a, b⟩ := p
      exact ((mem_dupSpecUpTo score n m a b).mp hp).1
    have hqm : q.1 = m := ((mem_rowSpec score m _ q).mp hq).1
    exact Or.inl (by omega)

/-- C6: find_duplicates never reports a pair in both orders; it reports
nothing on a batch of size at most one; for distinct valid indices the
unordered pair is reported exactly when the similarity of the stringified
key fields strictly exceeds 90; and records with identical stringified key
fields always appear as a pair (their similarity is 100). -/
theorem claim6_find_duplicates (records : List Record) (key_field : String) :
    (∀ i j, ¬((i, j) ∈ find_duplicates records key_field ∧
              (j, i) ∈ find_duplicates records key_field)) ∧
    (records.length ≤ 1 → find_duplicates records key_field = []) ∧
    (∀ i j, i < records.length → j < records.length → i ≠ j →
      (((i, j) ∈ find_duplicates records key_field ∨
        (j, i) ∈ find_duplicates records key_field) ↔
        90 < fuzzRatio (keyStr (records.getD i []) key_field)
          (keyStr (records.getD j []) key_field))) ∧
    (∀ i j, i < records.length → j < records.length → i ≠ j →
      keyStr (records.getD i []) key_field = keyStr (records.getD j []) key_field →
      ((i, j) ∈ find_duplicates records key_field ∨
        (j, i) ∈ find_duplicates records key_field)) := by
  refine ⟨?_, ?_, ?_, ?_⟩
  · rintro i j ⟨h1, h2⟩
    rw [mem_find_duplicates] at h1 h2
    omega
  · intro hn
    rcases h : find_duplicates records key_field with _ | ⟨⟨a, b⟩, rest⟩
    · rfl
    · exfalso
      have hmem : (a, b) ∈ find_duplicates records key_field := by
        rw [h]
        exact List.mem_cons_self _ _
      rw [mem_find_duplicates] at hmem
      omega
  · intro i j hi hj hij
    rw [mem_find_duplicates, mem_find_duplicates]
    constructor
    · rintro (⟨-, -, h⟩ | ⟨-, -, h⟩)
      · exact h
      · rw [fdScore_comm records key_field j i] at h
        exact h
    · intro h
      rcases Nat.lt_or_ge i j with hlt | hge
      · exact Or.inl ⟨hj, hlt, h⟩
      · refine Or.inr ⟨hi, by omega, ?_⟩
        rw [fdScore_comm records key_field j i]
        exact h
  · intro i j hi hj hij hkey
    have hsc : 90 < fdScore records key_field i j := by
      rw [fdScore, hkey, fuzzRatio_self]
      omega
    rcases Nat.lt_or_ge i j with hlt | hge
    · exact Or.inl ((mem_find_duplicates records key_field i j).mpr ⟨hj, hlt, hsc⟩)
    · refine Or.inr ((mem_find_duplicates records key_field j i).mpr ⟨hi, by omega, ?_⟩)
      rw [fdScore_comm records key_field j i]
      exact hsc

/-- C6 witness: the deduplication theorem applied to a concrete batch of
three records whose first and third share an identical email, concluding
that the unordered pair is reported. -/
theorem claim6_witness :
    (0, 2) ∈ find_duplicates
        [[("email", Value.str "a@x.com")], [("email", Value.str "zzz")],
         [("email", Value.str "a@x.com")]] "email" ∨
      (2, 0) ∈ find_duplicates
        [[("email", Value.str "a@x.com")], [("email", Value.str "zzz")],
         [("email", Value.str "a@x.com")]] "email" :=
  (claim6_find_duplicates
    [[("email", Value.str "a@x.com")], [("email", Value.str "zzz")],
     [("email", Value.str "a@x.com")]] "email").2.2.2 0 2
    (by decide) (by decide) (by decide) rfl

/-- C10: every reported pair (i, j) has i strictly below j, and the
reported list is lexicographically sorted: the outer (first) index never
decreases, and within one first index the second index increases. -/
theorem claim10_pairs_sorted (records : List Record) (key_field : String) :
    (∀ p ∈ find_duplicates records key_field, p.1 < p.2) ∧
    List.Pairwise (fun p q : Nat × Nat => p.1 < q.1 ∨ (p.1 = q.1 ∧ p.2 < q.2))
      (find_duplicates records key_field) := by
  constructor
  · intro p hp
    obtain ⟨a, b⟩ := p
    exact ((mem_find_duplicates records key_field a b).mp hp).2.1
  · rw [find_duplicates_eq]
    exact dupSpecUpTo_pairwise _ _ _

theorem hasCol_false_iff (records : List Record) (f : String) :
    hasCol records f = false ↔ ∀ r ∈ records, getVal r f = none := by
  rw [hasCol, List.any_eq_false]
  constructor
  · intro h r hr
    have h2 := h r hr
    cases hg : getVal r f
    · rfl
    · rw [hg] at h2
      exact absurd rfl h2
  · intro h r hr
    rw [h r hr]
    simp

theorem staleFlag_nonstr (nowOrd t : Int) (c : Option Value) (h : notStrCell c = true) :
    staleFlag nowOrd t c = .ok true := by
  rcases c with _ | v
  · rfl
  · rcases v with s | q | b | _
    · cases h
    all_goals rfl

theorem pastDueFlag_nonstr (nowOrd : Int) (nf : Bool) (c : Option Value)
    (h : notStrCell c = true) : pastDueFlag nowOrd nf c = .ok false := by
  rcases c with _ | v
  · rfl
  · rcases v with s | q | b | _
    · cases h
    all_goals rfl

theorem staleCount_nonstr (nowOrd t : Int) (records : List Record)
    (h : ∀ r ∈ records, notStrCell (getVal r "last_activity") = true) :
    staleCount nowOrd t records = .ok records.length := by
  induction records with
  | nil => rfl
  | cons r rest ih =>
    have hf := staleFlag_nonstr nowOrd t (getVal r "last_activity")
      (h r (List.mem_cons_self r rest))
    have hr := ih fun x hx => h x (List.mem_cons_of_mem r hx)
    rw [staleCount, hf, hr]
    simp [Nat.add_comm]

theorem pastDueCount_nonstr (nowOrd : Int) (nf : Bool) (records : List Record)
    (h : ∀ r ∈ records, notStrCell (getVal r "close_date") = true) :
    pastDueCount nowOrd nf records = .ok 0 := by
  induction records with
  | nil => rfl
  | cons r rest ih =>
    have hf := pastDueFlag_nonstr nowOrd nf (getVal r "close_date")
      (h r (List.mem_cons_self r rest))
    have hr := ih fun x hx => h x (List.mem_cons_of_mem r hx)
    rw [pastDueCount, hf, hr]
    rfl

theorem staleCount_error (nowOrd t : Int) (records : List Record)
    (h : ∃ r ∈ records, ∃ s, getVal r "last_activity" = some (.str s) ∧ parseDate s = none) :
    ∃ e, staleCount nowOrd t records = .error e := by
  induction records with
  | nil =>
    obtain ⟨r, hr, -⟩ := h
    cases hr
  | cons r rest ih =>
    obtain ⟨r', hr', s, hs, hp⟩ := h
    rcases List.mem_cons.mp hr' with rfl | htail
    · have hf : staleFlag nowOrd t (getVal r' "last_activity") =
          .error "ValueError: time data does not match format" := by
        rw [hs]
        simp only [staleFlag, hp]
      exact ⟨_, by rw [staleCount, hf]⟩
    · rcases hflag : staleFlag nowOrd t (getVal r "last_activity") with e | b
      · exact ⟨e, by rw [staleCount, hflag]⟩
      · obtain ⟨e, he⟩ := ih ⟨r', htail, s, hs, hp⟩
        exact ⟨e, by rw [staleCount, hflag, he]⟩

theorem pastDueCount_error (nowOrd : Int) (nf : Bool) (records : List Record)
    (h : ∃ r ∈ records, ∃ s, getVal r "close_date" = some (.str s) ∧ parseDate s = none) :
    ∃ e, pastDueCount nowOrd nf records = .error e := by
  induction records with
  | nil =>
    obtain ⟨r, hr, -⟩ := h
    cases hr
  | cons r rest ih =>
    obtain ⟨r', hr', s, hs, hp⟩ := h
    rcases List.mem_cons.mp hr' with rfl | htail
    · have hf : pastDueFlag nowOrd nf (getVal r' "close_date") =
          .error "ValueError: time data does not match format" := by
        rw [hs]
        simp only [pastDueFlag, hp]
      exact ⟨_, by rw [pastDueCount, hf]⟩
    · rcases hflag : pastDueFlag nowOrd nf (getVal r "close_date") with e | b
      · exact ⟨e, by rw [pastDueCount, hflag]⟩
      · obtain ⟨e, he⟩ := ih ⟨r', htail, s, hs, hp⟩
        exact ⟨e, by rw [pastDueCount, hflag, he]⟩

theorem gi_email_error (nowOrd : Int) (nf : Bool) (records : List Record)
    (dups : List (Nat × Nat)) (h : hasCol records "email" = false) :
    generate_insights nowOrd nf records dups = .error "KeyError: email" := by
  rw [generate_insights]
  simp only [h, Bool.false_eq_true, if_false]

theorem gi_close_error (nowOrd : Int) (nf : Bool) (records : List Record)
    (dups : List (Nat × Nat)) (hE : hasCol records "email" = true)
    (h : hasCol records "close_date" = false) :
    generate_insights nowOrd nf records dups = .error "KeyError: close_date" := by
  rw [generate_insights]
  simp only [hE, h, Bool.false_eq_true, if_false, if_true]

theorem gi_last_error (nowOrd : Int) (nf : Bool) (records : List Record)
    (dups : List (Nat × Nat)) (hE : hasCol records "email" = true)
    (hC : hasCol records "close_date" = true)
    (h : hasCol records "last_activity" = false) :
    generate_insights nowOrd nf records dups = .error "KeyError: last_activity" := by
  rw [generate_insights]
  simp only [hE, hC, h, Bool.false_eq_true, if_false, if_true]

/-- The shape of generate_insights once the three unguarded columns exist:
only the two staleness sums and the past-due sum can still raise. -/
theorem gi_unfold (nowOrd : Int) (nf : Bool) (records : List Record)
    (dups : List (Nat × Nat)) (hE : hasCol records "email" = true)
    (hC : hasCol records "close_date" = true)
    (hL : hasCol records "last_activity" = true) :
    generate_insights nowOrd nf records dups =
      (match staleCount nowOrd 30 records with
       | .error e => .error e
       | .ok stale =>
         match staleCount nowOrd 14 records with
         | .error e => .error e
         | .ok untouched =>
           match pastDueCount nowOrd nf records with
           | .error e => .error e
           | .ok pastDue =>
             .ok fun m =>
               match m with
               | .leadsMissingEmail => nullCount records "email"
               | .oppsWithoutCloseDate => nullCount records "close_date"
               | .duplicateRecords => dups.length
               | .oppsWithoutOwner =>
                 if hasCol records "owner" then nullCount records "owner" else 0
               | .dealsWithoutStage =>
                 if hasCol records "stage" then nullCount records "stage" else 0
               | .staleOpportunities => stale
               | .untouchedLeads => untouched
               | .missingIndustrySize =>
                 if hasCol records "industry" && hasCol records "company_size"
                 then eitherNullCount records else 0
               | .invalidEmailOrPhone => invalidCount records
               | .contactsWithoutAccounts =>
                 if hasCol records "account_id" then nullCount records "account_id" else 0
               | .pastDueCloseDates => pastDue
               | .normalizationFixes =>
                 if hasCol records "normalized" then trueCount records "normalized" else 0) := by
  rw [generate_insights]
  simp only [hE, hC, hL, if_true]

/-- C3 counterexample: on a non-empty batch whose single record lacks the
email field, generate_insights raises a KeyError instead of yielding 0 for
the email metric. -/
theorem claim3_counterexample :
    generate_insights 0 false [[("name", Value.str "x")]] [] = .error "KeyError: email" := rfl

/-- C3 (amended): the unguarded column accesses (email, and likewise
close_date and last_activity) raise a KeyError when the field is absent
from every record of the batch; only the guarded metrics (owner, stage,
industry with company_size, account_id, normalized) yield 0 on a batch
that entirely lacks their field. -/
theorem claim3_insights_missing_columns :
    (∀ (nowOrd : Int) (nf : Bool) (records : List Record) (dups : List (Nat × Nat)),
      (∀ r ∈ records, getVal r "email" = none) →
      generate_insights nowOrd nf records dups = .error "KeyError: email") ∧
    (∀ (nowOrd : Int) (nf : Bool) (records : List Record) (dups : List (Nat × Nat))
        (ins : Metric → Nat),
      generate_insights nowOrd nf records dups = .ok ins →
      ((∀ r ∈ records, getVal r "owner" = none) → ins .oppsWithoutOwner = 0) ∧
      ((∀ r ∈ records, getVal r "stage" = none) → ins .dealsWithoutStage = 0) ∧
      ((∀ r ∈ records, getVal r "industry" = none) → ins .missingIndustrySize = 0) ∧
      ((∀ r ∈ records, getVal r "account_id" = none) → ins .contactsWithoutAccounts = 0) ∧
      ((∀ r ∈ records, getVal r "normalized" = none) → ins .normalizationFixes = 0)) := by
  constructor
  · intro nowOrd nf records dups habs
    exact gi_email_error nowOrd nf records dups ((hasCol_false_iff records "email").mpr habs)
  · intro nowOrd nf records dups ins h
    rcases hE : hasCol records "email" with _ | _
    · rw [gi_email_error nowOrd nf records dups hE] at h
      cases h
    rcases hC : hasCol records "close_date" with _ | _
    · rw [gi_close_error nowOrd nf records dups hE hC] at h
      cases h
    rcases hL : hasCol records "last_activity" with _ | _
    · rw [gi_last_error nowOrd nf records dups hE hC hL] at h
      cases h
    rw [gi_unfold nowOrd nf records dups hE hC hL] at h
    rcases h30 : staleCount nowOrd 30 records with e | stale
    · simp only [h30] at h
      cases h
    simp only [h30] at h
    rcases h14 : staleCount nowOrd 14 records with e | unt
    · simp only [h14] at h
      cases h
    simp only [h14] at h
    rcases hpd : pastDueCount nowOrd nf records with e | pd
    · simp only [hpd] at h
      cases h
    simp only [hpd] at h
    injection h with h
    refine ⟨?_, ?_, ?_, ?_, ?_⟩
    · intro habs
      rw [← h]
      show (if hasCol records "owner" then nullCount records "owner" else 0) = 0
      rw [(hasCol_false_iff records "owner").mpr habs]
      rfl
    · intro habs
      rw [← h]
      show (if hasCol records "stage" then nullCount records "stage" else 0) = 0
      rw [(hasCol_false_iff records "stage").mpr habs]
      rfl
    · intro habs
      rw [← h]
      show (if hasCol records "industry" && hasCol records "company_size"
        then eitherNullCount records else 0) = 0
      rw [(hasCol_false_iff records "industry").mpr habs, Bool.false_and]
      rfl
    · intro habs
      rw [← h]
      show (if hasCol records "account_id" then nullCount records "account_id" else 0) = 0
      rw [(hasCol_false_iff records "account_id").mpr habs]
      rfl
    · intro habs
      rw [← h]
      show (if hasCol records "normalized" then trueCount records "normalized" else 0) = 0
      rw [(hasCol_false_iff records "normalized").mpr habs]
      rfl

/-- C3 witness: the amended theorem applied at a concrete one-record batch
without an email field, concluding the KeyError. -/
theorem claim3_witness :
    generate_insights 0 false [[("stage", Value.str "won")]] [] = .error "KeyError: email" :=
  claim3_insights_missing_columns.1 0 false [[("stage", Value.str "won")]] []
    (by
      intro r hr
      rw [List.mem_singleton.mp hr]
      rfl)

/-- C4 counterexample: a record whose last_activity is a string that fails
to parse as YYYY-MM-DD makes generate_insights raise a ValueError, instead
of being counted as stale without raising. -/
theorem claim4_counterexample :
    generate_insights 0 false
      [[("email", Value.str "a@b.c"), ("close_date", Value.num 1),
        ("last_activity", Value.str "notadate")]] [] =
      .error "ValueError: time data does not match format" := rfl

/-- C4 (amended): detect_stale returns true for an absent, non-string or
unparsable last_activity; generate_insights counts an absent or non-string
last_activity as stale for both staleness metrics and an absent or
non-string close_date as not past due, without raising (when the three
unguarded columns exist); but a record whose last_activity or close_date
is a string that fails to parse makes generate_insights raise. -/
theorem claim4_stale_dates :
    (∀ (nowOrd : Int) (r : Record) (t : Int),
      (getVal r "last_activity" = none ∨
       (∃ v, getVal r "last_activity" = some v ∧ ∀ s, v ≠ Value.str s) ∨
       (∃ s, getVal r "last_activity" = some (Value.str s) ∧ parseDate s = none)) →
      detect_stale nowOrd r t = true) ∧
    (∀ (nowOrd : Int) (nf : Bool) (records : List Record) (dups : List (Nat × Nat)),
      hasCol records "email" = true → hasCol records "close_date" = true →
      hasCol records "last_activity" = true →
      (∀ r ∈ records, notStrCell (getVal r "last_activity") = true ∧
        notStrCell (getVal r "close_date") = true) →
      ∃ ins, generate_insights nowOrd nf records dups = .ok ins ∧
        ins .staleOpportunities = records.length ∧
        ins .untouchedLeads = records.length ∧
        ins .pastDueCloseDates = 0) ∧
    (∀ (nowOrd : Int) (nf : Bool) (records : List Record) (dups : List (Nat × Nat))
        (r : Record), r ∈ records →
      ((∃ s, getVal r "last_activity" = some (Value.str s) ∧ parseDate s = none) ∨
       (∃ s, getVal r "close_date" = some (Value.str s) ∧ parseDate s = none)) →
      ∃ e, generate_insights nowOrd nf records dups = .error e) := by
  refine ⟨?_, ?_, ?_⟩
  · intro nowOrd r t hcond
    rcases hcond with hn | ⟨v, hv, hns⟩ | ⟨s, hs, hp⟩
    · simp only [detect_stale, hn]
    · rcases v with s | q | b | _
      · exact absurd rfl (hns s)
      all_goals simp only [detect_stale, hv]
    · simp only [detect_stale, hs, hp]
  · intro nowOrd nf records dups hE hC hL hsafe
    have h30 := staleCount_nonstr nowOrd 30 records fun r hr => (hsafe r hr).1
    have h14 := staleCount_nonstr nowOrd 14 records fun r hr => (hsafe r hr).1
    have hpd := pastDueCount_nonstr nowOrd nf records fun r hr => (hsafe r hr).2
    refine ⟨fun m =>
      match m with
      | .leadsMissingEmail => nullCount records "email"
      | .oppsWithoutCloseDate => nullCount records "close_date"
      | .duplicateRecords => dups.length
      | .oppsWithoutOwner => if hasCol records "owner" then nullCount records "owner" else 0
      | .dealsWithoutStage => if hasCol records "stage" then nullCount records "stage" else 0
      | .staleOpportunities => records.length
      | .untouchedLeads => records.length
      | .missingIndustrySize =>
        if hasCol records "industry" && hasCol records "company_size"
        then eitherNullCount records else 0
      | .invalidEmailOrPhone => invalidCount records
      | .contactsWithoutAccounts =>
        if hasCol records "account_id" then nullCount records "account_id" else 0
      | .pastDueCloseDates => 0
      | .normalizationFixes =>
        if hasCol records "normalized" then trueCount records "normalized" else 0,
      ?_, rfl, rfl, rfl⟩
    rw [gi_unfold nowOrd nf records dups hE hC hL]
    simp only [h30, h14, hpd]
  · intro nowOrd nf records dups r hr hcond
    rcases hEc : hasCol records "email" with _ | _
    · exact ⟨_, gi_email_error nowOrd nf records dups hEc⟩
    rcases hCc : hasCol records "close_date" with _ | _
    · exact ⟨_, gi_close_error nowOrd nf records dups hEc hCc⟩
    rcases hLc : hasCol records "last_activity" with _ | _
    · exact ⟨_, gi_last_error nowOrd nf records dups hEc hCc hLc⟩
    rw [gi_unfold nowOrd nf records dups hEc hCc hLc]
    rcases hcond with ⟨s, hs, hp⟩ | ⟨s, hs, hp⟩
    · obtain ⟨e, he⟩ := staleCount_error nowOrd 30 records ⟨r, hr, s, hs, hp⟩
      exact ⟨e, by simp only [he]⟩
    · rcases h30 : staleCount nowOrd 30 records with e | stale
      · exact ⟨e, by simp only [h30]⟩
      rcases h14 : staleCount nowOrd 14 records with e | unt
      · exact ⟨e, by simp only [h30, h14]⟩
      obtain ⟨e, he⟩ := pastDueCount_error nowOrd nf records ⟨r, hr, s, hs, hp⟩
      exact ⟨e, by simp only [h30, h14, he]⟩

/-- C4 witness: the amended theorem applied at a concrete batch whose one
record has a null last_activity and a numeric close_date, concluding that
the record counts as stale at both thresholds and not past due. -/
theorem claim4_witness :
    ∃ ins, generate_insights 5 true
        [[("email", Value.null), ("close_date", Value.num 1),
          ("last_activity", Value.bool true)]] [] = .ok ins ∧
      ins .staleOpportunities = 1 ∧ ins .untouchedLeads = 1 ∧ ins .pastDueCloseDates = 0 :=
  claim4_stale_dates.2.1 5 true
    [[("email", Value.null), ("close_date", Value.num 1), ("last_activity", Value.bool true)]]
    [] rfl rfl rfl (by decide)

/-- C5 counterexample: the pipeline on an empty batch raises (a KeyError on
the email column inside generate_insights) instead of yielding an all-zero
InsightMap with score 100. -/
theorem claim5_counterexample :
    run_pipeline 0 false [] [] = .error "KeyError: email" := rfl

/-- C5 (amended): on an empty batch the pipeline raises a KeyError on the
email column in the insights step (pandas has no columns on an empty
frame), so no InsightMap is produced; the scoring function itself does map
the all-zero InsightMap to exactly 100. -/
theorem claim5_empty_pipeline :
    (∀ (nowOrd : Int) (nf : Bool) (src : List (String × Value)),
      run_pipeline nowOrd nf [] src = .error "KeyError: email") ∧
    calculate_health_score (fun _ => 0) = 100 := by
  constructor
  · intro nowOrd nf src
    rfl
  · rw [calculate_health_score, penalty_all_zero, remap, if_pos rfl]

end SalesOps
